import Mathlib

/-!
Verification of the grisbi backup tool (grisbi.py): a shallow embedding of
its configuration parsing, backup-set resolution, archive naming, timestamp
parsing, pruning and backup orchestration logic, with theorems checking the
natural-language specification against the code.

Conventions of the embedding:
  - Python strings are Lean `String`s (lists of unicode characters); the
    string-classification helpers (`str.isdigit`, `str.strip`) are modelled
    for the ASCII character repertoire the program manipulates.
  - `datetime` values are modelled by the `Timestamp` structure; datetime
    subtraction is modelled as the difference of proleptic-Gregorian epoch
    seconds, and the float division by 86400 is modelled exactly over `ℚ`.
  - `strftime("%Y-%m-%d-%H%M%S")` follows the observed CPython/glibc
    behaviour: `%Y` prints the year unpadded, `%m %d %H %M %S` zero-pad to
    width 2.
  - The filesystem is passed in explicitly: a directory listing is a list of
    entries, external tools (tar, age) are boolean oracles telling whether
    the invocation succeeds for a given target.
-/

namespace Grisbi

/-! ### Characters, digits, python string helpers -/

/-- Numeric value of a digit character. -/
def digitVal (c : Char) : ℕ := c.toNat - 48

/-- The character for a digit value below 10. -/
def digitChar (n : ℕ) : Char := Char.ofNat (48 + n)

/-- Python whitespace (`\s`, `str.strip`) restricted to ASCII. -/
def pySpace (c : Char) : Bool :=
  c == ' ' || c == '\t' || c == '\n' || c == '\r' || c == '\x0b' || c == '\x0c'

/-- Python `str.strip()`: remove leading and trailing whitespace. -/
def pyStrip (cs : List Char) : List Char :=
  ((cs.dropWhile pySpace).reverse.dropWhile pySpace).reverse

/-- Python `str.isdigit()` on ASCII strings: nonempty and all characters
decimal digits. -/
def pyIsdigit (s : String) : Bool :=
  !s.data.isEmpty && s.data.all Char.isDigit

/-- Python `int()` on a string of decimal digits. -/
def strToNat (s : String) : ℕ :=
  s.data.foldl (fun acc c => 10 * acc + digitVal c) 0

/-- Digit accumulator for `natToChars`; the first argument is fuel, always
sufficient when it exceeds the number being printed. -/
def natToCharsAux : ℕ → ℕ → List Char → List Char
  | 0, _, acc => acc
  | f + 1, n, acc =>
    if n < 10 then digitChar n :: acc
    else natToCharsAux f (n / 10) (digitChar (n % 10) :: acc)

/-- Unpadded decimal representation of a natural number (glibc `%Y`, `%d`). -/
def natToChars (n : ℕ) : List Char := natToCharsAux (n + 1) n []

/-- Zero-padded width-2 decimal (`%02d`, used by `%m %d %H %M %S` for the
in-range values a valid datetime produces). -/
def fmt2 (n : ℕ) : List Char :=
  if n < 10 then ['0', digitChar n] else natToChars n

/-! ### Timestamps (the `datetime` values grisbi manipulates) -/

/-- A wall-clock timestamp at second precision (`datetime` without
microseconds, as produced by `strptime`). -/
structure Timestamp where
  year : ℕ
  month : ℕ
  day : ℕ
  hour : ℕ
  minute : ℕ
  second : ℕ
deriving DecidableEq, Repr

/-- Gregorian leap year. -/
def isLeap (y : ℕ) : Bool :=
  (y % 4 == 0 && y % 100 != 0) || y % 400 == 0

/-- Days in a month of a given year (0 for an invalid month number). -/
def daysInMonth (y m : ℕ) : ℕ :=
  match m with
  | 1 => 31
  | 2 => if isLeap y then 29 else 28
  | 3 => 31
  | 4 => 30
  | 5 => 31
  | 6 => 30
  | 7 => 31
  | 8 => 31
  | 9 => 30
  | 10 => 31
  | 11 => 30
  | 12 => 31
  | _ => 0

/-- A timestamp `datetime.strptime` (and the `datetime` constructor)
accepts: year in 1..9999, valid calendar date, valid time of day. -/
def validTs (t : Timestamp) : Bool :=
  1 ≤ t.year && t.year ≤ 9999 &&
  1 ≤ t.month && t.month ≤ 12 &&
  1 ≤ t.day && t.day ≤ daysInMonth t.year t.month &&
  t.hour ≤ 23 && t.minute ≤ 59 && t.second ≤ 59

/-- Days in the given year strictly before month `m`. -/
def daysBeforeMonth (y : ℕ) : ℕ → ℕ
  | 0 => 0
  | m + 1 => daysBeforeMonth y m + daysInMonth y m

/-- Number of leap years in `1..y`. -/
def leapsBefore (y : ℕ) : ℕ := y / 4 - y / 100 + y / 400

/-- Proleptic-Gregorian day number (like `datetime.toordinal`, shifted so
that 0001-01-01 is day 0). -/
def dayNumber (t : Timestamp) : ℕ :=
  365 * (t.year - 1) + leapsBefore (t.year - 1) +
    daysBeforeMonth t.year t.month + (t.day - 1)

/-- Epoch seconds of a timestamp; `datetime` subtraction is the difference
of these values. -/
def toSeconds (t : Timestamp) : ℕ :=
  86400 * dayNumber t + 3600 * t.hour + 60 * t.minute + t.second

/-- Age of an archive in fractional days at time `now` (epoch seconds):
`(now - file_dt).total_seconds() / 86400`. -/
def ageDays (now : ℤ) (t : Timestamp) : ℚ :=
  ((now : ℚ) - (toSeconds t : ℚ)) / 86400

/-- The executable form of the retention test `age_days > max_age_days`:
cross-multiplied by the positive denominator 86400 so that it is an
integer comparison (proved equivalent to `ageDays now t > maxAgeDays` in
`ageExceeds_iff`). -/
def ageExceeds (now : ℤ) (t : Timestamp) (maxAgeDays : ℕ) : Bool :=
  (86400 : ℤ) * maxAgeDays < now - (toSeconds t : ℤ)

/-! ### String ordering (python string comparison, code point by code point) -/

/-- Python character comparison: by code point. -/
def charLtB (a b : Char) : Bool := decide (a.toNat < b.toNat)

/-- Python string comparison (on the character lists): lexicographic. -/
def listLtB : List Char → List Char → Bool
  | _, [] => false
  | [], _ :: _ => true
  | a :: as, b :: bs => charLtB a b || (!charLtB b a && listLtB as bs)

/-- `a ≤ b` on strings as python sorts them: not `b < a`. -/
def strLeB (a b : String) : Bool := !listLtB b.data a.data

/-- The sorting relation used by `sorted(...)`, as a proposition. -/
def strLe (a b : String) : Prop := strLeB a b = true

instance : DecidableRel strLe :=
  fun a b => inferInstanceAs (Decidable (strLeB a b = true))

/-! ### Archive naming (`cmd_backup`) and timestamp parsing (`cmd_prune`) -/

/-- `datetime.strftime("%Y-%m-%d-%H%M%S")`: unpadded year, the remaining
fields zero-padded to width 2. -/
def formatTimestamp (t : Timestamp) : List Char :=
  natToChars t.year ++ ['-'] ++ fmt2 t.month ++ ['-'] ++ fmt2 t.day ++ ['-']
    ++ fmt2 t.hour ++ fmt2 t.minute ++ fmt2 t.second

/-- Output filename for one backup target:
`f"./{base}-{timestamp}.tar.gz.age"` (without the `./` prefix, which is not
part of the name). -/
def archiveName (base : String) (t : Timestamp) : String :=
  base ++ "-" ++ String.mk (formatTimestamp t) ++ ".tar.gz.age"

/-- The characters of the fixed suffix of the prune regex. -/
def suffixChars : List Char := ".tar.gz.age".data

/-- Shape of the captured group of the regex
`-(\d{4}-\d{2}-\d{2}-\d{6})\.tar\.gz\.age$`: 17 characters, digits in the
4-2-2-6 layout separated by dashes. -/
def tsShape (g : List Char) : Bool :=
  match g with
  | [y1, y2, y3, y4, a, m1, m2, b, d1, d2, c, h1, h2, n1, n2, s1, s2] =>
    ([y1, y2, y3, y4, m1, m2, d1, d2, h1, h2, n1, n2, s1, s2].all Char.isDigit)
      && a == '-' && b == '-' && c == '-'
  | _ => false

/-- Try to match the whole remaining input against
`-(\d{4}-\d{2}-\d{2}-\d{6})\.tar\.gz\.age$` (the pattern is anchored at the
end, so a match must consume everything); returns the captured group. -/
def matchTsAt (cs : List Char) : Option (List Char) :=
  match cs with
  | c :: rest =>
    if c == '-' && tsShape (rest.take 17) && rest.drop 17 == suffixChars then
      some (rest.take 17)
    else none
  | [] => none

/-- `re.search` for the timestamp pattern: leftmost position where the
(end-anchored) pattern matches. -/
def searchTs : List Char → Option (List Char)
  | [] => none
  | c :: rest =>
    match matchTsAt (c :: rest) with
    | some g => some g
    | none => searchTs rest

/-- `datetime.strptime(ts_str, "%Y-%m-%d-%H%M%S")` on a captured group of
the 4-2-2-6 shape: succeeds exactly when the digits form an existing
calendar date and time of day (otherwise `ValueError`). -/
def strptimeTs (g : List Char) : Option Timestamp :=
  match g with
  | [y1, y2, y3, y4, a, m1, m2, b, d1, d2, c, h1, h2, n1, n2, s1, s2] =>
    if ([y1, y2, y3, y4, m1, m2, d1, d2, h1, h2, n1, n2, s1, s2].all Char.isDigit)
        && a == '-' && b == '-' && c == '-' then
      let t : Timestamp :=
        { year := 1000 * digitVal y1 + 100 * digitVal y2 + 10 * digitVal y3 + digitVal y4
          month := 10 * digitVal m1 + digitVal m2
          day := 10 * digitVal d1 + digitVal d2
          hour := 10 * digitVal h1 + digitVal h2
          minute := 10 * digitVal n1 + digitVal n2
          second := 10 * digitVal s1 + digitVal s2 }
      if validTs t then some t else none
    else none
  | _ => none

/-- Full filename-to-timestamp parse used by pruning: regex search for the
timestamp pattern, then `strptime` on the captured group. -/
def parseTimestamp (name : String) : Option Timestamp :=
  (searchTs name.data).bind strptimeTs

/-! ### Pruning (`cmd_prune`) -/

/-- The warning printed when the regex matched but `strptime` raised. -/
def cannotParseMsg (name : String) : String :=
  "Warning: cannot parse timestamp in " ++ name ++ ", skipping."

/-- Does the character list end with the given suffix. -/
def endsWithB (cs suffix : List Char) : Bool :=
  cs.drop (cs.length - suffix.length) == suffix

/-- `sorted(Path(".").glob("*.tar.gz.age"))`: the files of the working
directory whose name ends in the archive suffix, in ascending name order
(python compares paths of a common directory by their name strings, code
point by code point). -/
def globSorted (files : List String) : List String :=
  List.insertionSort strLe (files.filter (fun f => endsWithB f.data suffixChars))

/-- The prune loop over the globbed files: returns the names deleted and
the warnings printed, in processing order.  A file whose name the regex
does not match is skipped silently; a file whose matched digits do not
form an existing date draws a warning; a parseable file is deleted exactly
when its age in fractional days strictly exceeds the threshold. -/
def pruneGo (maxAgeDays : ℕ) (now : ℤ) : List String → List String × List String
  | [] => ([], [])
  | f :: rest =>
    let r := pruneGo maxAgeDays now rest
    match searchTs f.data with
    | none => r
    | some g =>
      match strptimeTs g with
      | none => (r.1, cannotParseMsg f :: r.2)
      | some t => if ageExceeds now t maxAgeDays then (f :: r.1, r.2) else r

/-- Deletion pass of `cmd_prune` over a directory listing. -/
def pruneScan (files : List String) (maxAgeDays : ℕ) (now : ℤ) :
    List String × List String :=
  pruneGo maxAgeDays now (globSorted files)

/-- Observable outcome of one `cmd_prune` invocation. -/
structure PruneRun where
  exitCode : ℕ
  usageShown : Bool
  remaining : List String
  deleted : List String
  warnings : List String
deriving DecidableEq, Repr

/-- `cmd_prune(days_str)` in a working directory holding `files`, at time
`now`: rejects a missing argument, a non-`isdigit` argument and the value
zero with a usage message and exit code 1 before touching any file,
otherwise deletes the selected archives. -/
def cmd_prune (daysArg : Option String) (files : List String) (now : ℤ) :
    PruneRun :=
  match daysArg with
  | none => ⟨1, true, files, [], []⟩
  | some s =>
    if !pyIsdigit s || strToNat s == 0 then ⟨1, true, files, [], []⟩
    else
      let r := pruneScan files (strToNat s) now
      ⟨0, false, files.filter (fun f => decide (f ∉ r.1)), r.1, r.2⟩

/-! ### Configuration parsing (`parse_config`) -/

/-- The two canonical directives after normalization. -/
inductive Directive where
  | path
  | folder
deriving DecidableEq, Repr

/-- Attempt of one alternative of `re.match(r"^(path|directory|folder)\s+(.*)", ...)`:
the keyword must be followed by at least one whitespace character; the raw
path is the rest after the greedy `\s+`, then stripped (`group(2).strip()`). -/
def kwMatch (kw : List Char) (s : List Char) : Option (List Char) :=
  if s.take kw.length == kw then
    match s.drop kw.length with
    | c :: rest => if pySpace c then some (pyStrip ((c :: rest).dropWhile pySpace)) else none
    | [] => none
  else none

/-- Directive classification of one stripped, nonblank, noncomment line:
a recognized keyword gives its directive (with `directory` normalized to
`path`); otherwise the whole line is a bare path under `path`. -/
def classifyStripped (s : List Char) : Option (Directive × List Char) :=
  match kwMatch "path".data s with
  | some raw => some (.path, raw)
  | none =>
    match kwMatch "directory".data s with
    | some raw => some (.path, raw)
    | none =>
      match kwMatch "folder".data s with
      | some raw => some (.folder, raw)
      | none => some (.path, s)

/-- One line of the config file: strip, skip blank lines and `#` comments,
then classify. -/
def parseConfigLine (line : String) : Option (Directive × String) :=
  let s := pyStrip line.data
  if s.isEmpty then none
  else if s.head? == some '#' then none
  else (classifyStripped s).map (fun p => (p.1, String.mk p.2))

/-- `parse_config` over the lines of the config file; `expand` is
`expand_path` (home and environment variable expansion, applied to the raw
path of every entry). -/
def parse_config (expand : String → String) (lines : List String) :
    List (Directive × String) :=
  lines.filterMap (fun l => (parseConfigLine l).map (fun p => (p.1, expand p.2)))

/-! ### Backup set resolution (`resolve_backup_dirs`) -/

/-- One entry of a directory listing, as seen by `Path.iterdir`. -/
structure Dirent where
  name : String
  isDir : Bool
deriving DecidableEq, Repr

/-- Expansion of one `folder` entry over the listing of the directory:
`sorted(child for child in p.iterdir() if child.is_dir())` — the child
paths (parent joined with the child name) of the subdirectories, sorted. -/
def folderChildren (parent : String) (listing : List Dirent) : List String :=
  List.insertionSort strLe
    ((listing.filter (fun e => e.isDir)).map (fun e => parent ++ "/" ++ e.name))

/-- `resolve_backup_dirs`: `path` entries that are directories stand for
themselves; `folder` entries that are directories expand to their sorted
child subdirectories; everything else is skipped (with a warning printed,
not modelled here). -/
def resolve_backup_dirs (isDir : String → Bool) (listing : String → List Dirent)
    (entries : List (Directive × String)) : List String :=
  entries.flatMap (fun e =>
    match e.1 with
    | .path => if isDir e.2 then [e.2] else []
    | .folder => if isDir e.2 then folderChildren e.2 (listing e.2) else [])

/-! ### Backup orchestration (`cmd_backup`) -/

/-- Result of the per-directory loop of `cmd_backup`: either the loop runs
to completion (process exits 0) or `age_encrypt` failed, printed an error
and called `sys.exit(1)` — ending the whole process at once.  Both carry
the archives created and the tar warnings printed up to that point. -/
inductive LoopResult where
  | finished (archived : List String) (warnings : List String)
  | aborted (archived : List String) (warnings : List String)
deriving DecidableEq, Repr

/-- Warning printed when tar fails for one directory. -/
def tarFailMsg (d : String) : String := "Warning: tar failed for " ++ d

/-- The `for d in dirs:` loop of `cmd_backup`: a tar failure prints a
warning and continues with the next directory; an encryption failure exits
the process (code 1) immediately. -/
def backupLoop (tarOk encOk : String → Bool) : List String → LoopResult
  | [] => .finished [] []
  | d :: rest =>
    if tarOk d then
      if encOk d then
        match backupLoop tarOk encOk rest with
        | .finished a w => .finished (d :: a) w
        | .aborted a w => .aborted (d :: a) w
      else .aborted [] []
    else
      match backupLoop tarOk encOk rest with
      | .finished a w => .finished a (tarFailMsg d :: w)
      | .aborted a w => .aborted a (tarFailMsg d :: w)

/-- Observable outcome of one `cmd_backup` invocation. -/
structure BackupRun where
  prompts : ℕ
  exitCode : ℕ
  archived : List String
  warnings : List String
deriving DecidableEq, Repr

/-- `cmd_backup` after config resolution: `dirs` are the resolved targets
(exit 1 when none); the passphrase comes from the `AGE_PASSPHRASE`
environment variable when that is set and nonempty (python truthiness of
`os.environ.get`), otherwise two prompts are read and a mismatch exits 1
before any tar or age invocation. -/
def cmd_backup (envPass : Option String) (promptFst promptSnd : String)
    (tarOk encOk : String → Bool) (dirs : List String) : BackupRun :=
  if dirs.isEmpty then ⟨0, 1, [], []⟩
  else
    let runLoop : ℕ → BackupRun := fun prompts =>
      match backupLoop tarOk encOk dirs with
      | .finished a w => ⟨prompts, 0, a, w⟩
      | .aborted a w => ⟨prompts, 1, a, w⟩
    match envPass with
    | some p =>
      if p == "" then
        if promptFst == promptSnd then runLoop 2 else ⟨2, 1, [], []⟩
      else runLoop 0
    | none =>
      if promptFst == promptSnd then runLoop 2 else ⟨2, 1, [], []⟩

/-! ## Lemmas on the string order -/

theorem charLtB_self (c : Char) : charLtB c c = false := by
  simp [charLtB]

theorem listLtB_cons_cons (a b : Char) (as bs : List Char) :
    listLtB (a :: as) (b :: bs) = (charLtB a b || (!charLtB b a && listLtB as bs)) :=
  rfl

theorem listLtB_not_both : ∀ {x y : List Char}, listLtB x y = true →
    listLtB y x = true → False
  | [], [], h1, _ => by simp [listLtB] at h1
  | [], _ :: _, _, h2 => by simp [listLtB] at h2
  | _ :: _, [], h1, _ => by simp [listLtB] at h1
  | a :: as, b :: bs, h1, h2 => by
    rw [listLtB_cons_cons] at h1 h2
    simp only [Bool.or_eq_true, Bool.and_eq_true, Bool.not_eq_true'] at h1 h2
    simp only [charLtB, Char.toNat, decide_eq_true_eq, decide_eq_false_iff_not] at h1 h2
    rcases h1 with h1 | ⟨h1a, h1b⟩ <;> rcases h2 with h2 | ⟨h2a, h2b⟩
    · omega
    · omega
    · omega
    · exact listLtB_not_both h1b h2b

theorem listLtB_asymm {x y : List Char} (h : listLtB x y = true) :
    listLtB y x = false :=
  Bool.eq_false_iff.mpr (fun h2 => listLtB_not_both h h2)

theorem listLtB_total {x y : List Char} (h1 : listLtB x y = false)
    (h2 : listLtB y x = false) : x = y := by
  induction x generalizing y with
  | nil =>
    cases y with
    | nil => rfl
    | cons b bs => simp [listLtB] at h1
  | cons a as ih =>
    cases y with
    | nil => simp [listLtB] at h2
    | cons b bs =>
      rw [listLtB_cons_cons] at h1 h2
      simp only [Bool.or_eq_false_iff, Bool.and_eq_false_iff, Bool.not_eq_false'] at h1 h2
      obtain ⟨hab, h1⟩ := h1
      obtain ⟨hba, h2⟩ := h2
      have hc : a = b := by
        simp only [charLtB, Char.toNat, decide_eq_false_iff_not] at hab hba
        exact Char.eq_of_val_eq (UInt32.toNat.inj (by omega))
      subst hc
      rcases h1 with h1 | h1
      · rw [charLtB_self] at h1; cases h1
      · rcases h2 with h2 | h2
        · rw [charLtB_self] at h2; cases h2
        · rw [ih h1 h2]

theorem listLtB_trans {x y z : List Char} (h1 : listLtB x y = true)
    (h2 : listLtB y z = true) : listLtB x z = true := by
  induction x generalizing y z with
  | nil =>
    cases z with
    | nil => cases y <;> simp [listLtB] at h1 h2
    | cons c cs => simp [listLtB]
  | cons a as ih =>
    cases y with
    | nil => simp [listLtB] at h1
    | cons b bs =>
      cases z with
      | nil => simp [listLtB] at h2
      | cons c cs =>
        rw [listLtB_cons_cons] at h1 h2 ⊢
        simp only [Bool.or_eq_true, Bool.and_eq_true, Bool.not_eq_true'] at h1 h2 ⊢
        simp only [charLtB, Char.toNat, decide_eq_true_eq, decide_eq_false_iff_not] at *
        rcases h1 with h1 | ⟨h1a, h1b⟩ <;> rcases h2 with h2 | ⟨h2a, h2b⟩
        · left; omega
        · left; omega
        · left; omega
        · exact Or.inr ⟨by omega, ih h1b h2b⟩

theorem strLe_total (a b : String) : strLe a b ∨ strLe b a := by
  unfold strLe strLeB
  rcases h : listLtB b.data a.data with _ | _
  · left; rfl
  · right
    rw [listLtB_asymm h]
    rfl

instance : IsTotal String strLe := ⟨strLe_total⟩

theorem strLe_trans {a b c : String} (h1 : strLe a b) (h2 : strLe b c) : strLe a c := by
  unfold strLe strLeB at *
  rw [Bool.not_eq_true'] at h1 h2 ⊢
  rcases hab : listLtB a.data b.data with _ | _
  · have hEq : a.data = b.data := listLtB_total hab h1
    rw [← hEq] at h2
    exact h2
  · rcases hca : listLtB c.data a.data with _ | _
    · rfl
    · have hcb : listLtB c.data b.data = true := listLtB_trans hca hab
      rw [hcb] at h2
      cases h2

instance : IsTrans String strLe := ⟨fun _ _ _ => strLe_trans⟩

theorem strLe_antisymm {a b : String} (h1 : strLe a b) (h2 : strLe b a) : a = b := by
  unfold strLe strLeB at h1 h2
  rw [Bool.not_eq_true'] at h1 h2
  exact String.toList_inj.mp (listLtB_total h2 h1)

instance : IsAntisymm String strLe := ⟨fun _ _ => strLe_antisymm⟩

theorem listLtB_append_same : ∀ (p x y : List Char),
    listLtB (p ++ x) (p ++ y) = listLtB x y
  | [], _, _ => rfl
  | c :: p, x, y => by
    show (charLtB c c || (!charLtB c c && listLtB (p ++ x) (p ++ y))) = listLtB x y
    rw [charLtB_self, listLtB_append_same p x y]
    rfl

theorem strLe_append_same {p a b : String} : strLe (p ++ a) (p ++ b) ↔ strLe a b := by
  unfold strLe strLeB
  rw [String.data_append, String.data_append, listLtB_append_same]

/-! ## Lemmas on timestamp formatting and parsing -/

theorem digitChar_isDigit {n : ℕ} (h : n < 10) : (digitChar n).isDigit = true := by
  interval_cases n <;> decide

theorem digitVal_digitChar {n : ℕ} (h : n < 10) : digitVal (digitChar n) = n := by
  interval_cases n <;> decide

theorem natToCharsAux_correct : ∀ (f n : ℕ) (acc : List Char), n < f →
    natToCharsAux f n acc = natToChars n ++ acc := by
  intro f
  induction f using Nat.strong_induction_on with
  | _ f ih =>
    intro n acc hn
    match f, hn with
    | f + 1, hn =>
      by_cases h10 : n < 10
      · simp [natToCharsAux, natToChars, h10]
      · have hrec : n / 10 < n := Nat.div_lt_self (by omega) (by omega)
        rw [show natToCharsAux (f + 1) n acc
              = natToCharsAux f (n / 10) (digitChar (n % 10) :: acc) from by
            simp [natToCharsAux, h10]]
        rw [show natToChars n
              = natToCharsAux n (n / 10) [digitChar (n % 10)] from by
            simp [natToChars, natToCharsAux, h10]]
        rw [ih f (by omega) (n / 10) _ (by omega),
          ih n (by omega) (n / 10) _ (by omega)]
        simp

theorem natToChars_eq (n : ℕ) : natToChars n =
    if n < 10 then [digitChar n]
    else natToChars (n / 10) ++ [digitChar (n % 10)] := by
  by_cases h10 : n < 10
  · simp [natToChars, natToCharsAux, h10]
  · rw [show natToChars n = natToCharsAux n (n / 10) [digitChar (n % 10)] from by
      simp [natToChars, natToCharsAux, h10]]
    rw [natToCharsAux_correct n (n / 10) _ (by omega)]
    simp [h10]

theorem natToChars_four {y : ℕ} (h1 : 1000 ≤ y) (h2 : y ≤ 9999) :
    natToChars y = [digitChar (y / 1000), digitChar (y / 100 % 10),
      digitChar (y / 10 % 10), digitChar (y % 10)] := by
  rw [natToChars_eq y, if_neg (by omega),
    natToChars_eq (y / 10), if_neg (by omega),
    natToChars_eq (y / 10 / 10), if_neg (by omega),
    natToChars_eq (y / 10 / 10 / 10), if_pos (by omega)]
  simp only [Nat.div_div_eq_div_mul]
  norm_num

theorem fmt2_eq {n : ℕ} (h : n < 100) :
    fmt2 n = [digitChar (n / 10), digitChar (n % 10)] := by
  unfold fmt2
  by_cases h10 : n < 10
  · rw [if_pos h10, show digitChar (n / 10) = '0' from by
      rw [Nat.div_eq_of_lt h10]; rfl]
    rw [Nat.mod_eq_of_lt h10]
  · rw [if_neg h10, natToChars_eq n, if_neg h10,
      natToChars_eq (n / 10), if_pos (by omega)]
    rfl

theorem tsShape_length {g : List Char} (h : tsShape g = true) : g.length = 17 := by
  unfold tsShape at h
  split at h
  · simp
  · cases h

theorem matchTsAt_cons (c : Char) (rest : List Char) :
    matchTsAt (c :: rest) =
      if c == '-' && tsShape (rest.take 17) && rest.drop 17 == suffixChars then
        some (rest.take 17)
      else none :=
  rfl

theorem searchTs_cons (c : Char) (rest : List Char) :
    searchTs (c :: rest) =
      match matchTsAt (c :: rest) with
      | some g => some g
      | none => searchTs rest :=
  rfl

theorem matchTsAt_some {cs g : List Char} (h : matchTsAt cs = some g) :
    cs = '-' :: g ++ suffixChars ∧ tsShape g = true ∧ cs.length = 29 := by
  cases cs with
  | nil => cases h
  | cons c rest =>
    rw [matchTsAt_cons] at h
    by_cases hc : (c == '-' && tsShape (rest.take 17) && rest.drop 17 == suffixChars) = true
    · rw [if_pos hc] at h
      have hg : rest.take 17 = g := Option.some_inj.mp h
      simp only [Bool.and_eq_true, beq_iff_eq] at hc
      obtain ⟨⟨hc1, hc2⟩, hc3⟩ := hc
      rw [hg] at hc2
      have hlen : g.length = 17 := tsShape_length hc2
      have hrest : rest = g ++ suffixChars := by
        conv_lhs => rw [← List.take_append_drop 17 rest, hg, hc3]
      have hrlen : rest.length = 28 := by
        rw [hrest, List.length_append, hlen]
        rfl
      subst hc1
      exact ⟨by simp [hrest], hc2, by simp [hrlen]⟩
    · rw [if_neg hc] at h
      cases h

theorem matchTsAt_construct {g : List Char} (h : tsShape g = true) :
    matchTsAt ('-' :: (g ++ suffixChars)) = some g := by
  have hl := tsShape_length h
  rw [matchTsAt_cons, List.take_left' hl, List.drop_left' hl]
  simp [h]

theorem searchTs_append (pre post : List Char) (g : List Char)
    (hm : matchTsAt post = some g) : searchTs (pre ++ post) = some g := by
  induction pre with
  | nil =>
    cases post with
    | nil => cases hm
    | cons c rest =>
      rw [List.nil_append, searchTs_cons, hm]
  | cons a pre ih =>
    have hnone : matchTsAt (a :: (pre ++ post)) = none := by
      rcases hmt : matchTsAt (a :: (pre ++ post)) with _ | g2
      · rfl
      · exfalso
        have h1 := (matchTsAt_some hmt).2.2
        have h2 := (matchTsAt_some hm).2.2
        simp only [List.length_cons, List.length_append, h2] at h1
        omega
    rw [List.cons_append, searchTs_cons, hnone]
    exact ih

theorem searchTs_some {cs g : List Char} (h : searchTs cs = some g) :
    ∃ pre, cs = pre ++ '-' :: g ++ suffixChars ∧ tsShape g = true := by
  induction cs with
  | nil => cases h
  | cons c rest ih =>
    rw [searchTs_cons] at h
    rcases hmt : matchTsAt (c :: rest) with _ | g2
    · rw [hmt] at h
      obtain ⟨pre, hpre, hshape⟩ := ih h
      exact ⟨c :: pre, by simp [hpre], hshape⟩
    · rw [hmt] at h
      have hg : g2 = g := Option.some_inj.mp h
      rw [hg] at hmt
      obtain ⟨hcs, hshape, _⟩ := matchTsAt_some hmt
      exact ⟨[], by simpa using hcs, hshape⟩

theorem suffixChars_length : suffixChars.length = 11 := rfl

theorem endsWith_of_searchTs {cs g : List Char} (h : searchTs cs = some g) :
    endsWithB cs suffixChars = true := by
  obtain ⟨pre, rfl, hshape⟩ := searchTs_some h
  have hlen : g.length = 17 := tsShape_length hshape
  have hre : pre ++ '-' :: g ++ suffixChars = (pre ++ '-' :: g) ++ suffixChars := by
    simp
  unfold endsWithB
  rw [hre]
  have hl1 : (pre ++ '-' :: g).length = pre.length + 18 := by
    simp [hlen]
  have hl2 : ((pre ++ '-' :: g) ++ suffixChars).length - suffixChars.length
      = pre.length + 18 := by
    rw [List.length_append, hl1]
    have := suffixChars_length
    omega
  rw [hl2, List.drop_left' hl1]
  simp

theorem ageExceeds_iff (now : ℤ) (t : Timestamp) (k : ℕ) :
    ageExceeds now t k = true ↔ (k : ℚ) < ageDays now t := by
  unfold ageExceeds ageDays
  rw [decide_eq_true_eq, lt_div_iff₀ (by norm_num : (0:ℚ) < 86400)]
  constructor <;> intro h
  · have h2 : ((86400 * (k : ℤ) : ℤ) : ℚ) < ((now - (toSeconds t : ℤ) : ℤ) : ℚ) := by
      exact_mod_cast h
    push_cast at h2
    linarith
  · have h2 : ((86400 * (k : ℤ) : ℤ) : ℚ) < ((now - (toSeconds t : ℤ) : ℤ) : ℚ) := by
      push_cast
      linarith
    exact_mod_cast h2

/-! ## Lemmas on the prune loop -/

theorem pruneGo_deleted_mem {k : ℕ} {now : ℤ} :
    ∀ {l : List String} {name : String}, name ∈ (pruneGo k now l).1 →
      name ∈ l ∧ ∃ t, parseTimestamp name = some t ∧ ageExceeds now t k = true := by
  intro l
  induction l with
  | nil => intro name h; cases h
  | cons f rest ih =>
    intro name h
    rcases hs : searchTs f.data with _ | g
    · simp only [pruneGo, hs] at h
      obtain ⟨hm, ht⟩ := ih h
      exact ⟨List.mem_cons_of_mem f hm, ht⟩
    · rcases hp : strptimeTs g with _ | t
      · simp only [pruneGo, hs, hp] at h
        obtain ⟨hm, ht⟩ := ih h
        exact ⟨List.mem_cons_of_mem f hm, ht⟩
      · by_cases hage : ageExceeds now t k = true
        · simp only [pruneGo, hs, hp, hage, if_true] at h
          rcases List.mem_cons.mp h with rfl | hm
          · exact ⟨List.mem_cons_self _ _,
              t, by unfold parseTimestamp; rw [hs]; simpa using hp, hage⟩
          · obtain ⟨hm2, ht⟩ := ih hm
            exact ⟨List.mem_cons_of_mem f hm2, ht⟩
        · simp only [pruneGo, hs, hp, hage, if_false, Bool.false_eq_true] at h
          obtain ⟨hm, ht⟩ := ih h
          exact ⟨List.mem_cons_of_mem f hm, ht⟩

theorem pruneGo_mem_deleted {k : ℕ} {now : ℤ} :
    ∀ {l : List String} {name : String} {t : Timestamp}, name ∈ l →
      parseTimestamp name = some t → ageExceeds now t k = true →
      name ∈ (pruneGo k now l).1 := by
  intro l
  induction l with
  | nil => intro name t h; cases h
  | cons f rest ih =>
    intro name t hm hp hage
    rcases List.mem_cons.mp hm with rfl | hm2
    · unfold parseTimestamp at hp
      rcases hs : searchTs name.data with _ | g <;> rw [hs] at hp
      · cases hp
      · simp only [Option.some_bind] at hp
        simp only [pruneGo, hs, hp, hage, if_true]
        exact List.mem_cons_self _ _
    · have hrec := ih hm2 hp hage
      rcases hs : searchTs f.data with _ | g
      · simpa only [pruneGo, hs] using hrec
      · rcases hps : strptimeTs g with _ | t2
        · simpa only [pruneGo, hs, hps] using hrec
        · by_cases hage2 : ageExceeds now t2 k = true
          · simp only [pruneGo, hs, hps, hage2, if_true]
            exact List.mem_cons_of_mem f hrec
          · simp only [pruneGo, hs, hps, hage2, if_false, Bool.false_eq_true]
            exact hrec

theorem pruneGo_warnings (k : ℕ) (now : ℤ) : ∀ l : List String,
    (pruneGo k now l).2 =
      (l.filter (fun f => (searchTs f.data).isSome && (parseTimestamp f).isNone)).map
        cannotParseMsg := by
  intro l
  induction l with
  | nil => rfl
  | cons f rest ih =>
    rcases hs : searchTs f.data with _ | g
    · simp only [pruneGo, hs]
      rw [List.filter_cons_of_neg (by simp [hs])]
      exact ih
    · have hps : parseTimestamp f = (strptimeTs g : Option Timestamp) := by
        unfold parseTimestamp
        rw [hs]
        rfl
      rcases hp : strptimeTs g with _ | t
      · simp only [pruneGo, hs, hp]
        rw [List.filter_cons_of_pos (by simp [hs, hps, hp])]
        rw [List.map_cons]
        exact congrArg _ ih
      · by_cases hage : ageExceeds now t k = true
        · simp only [pruneGo, hs, hp, hage, if_true]
          rw [List.filter_cons_of_neg (by simp [hs, hps, hp])]
          exact ih
        · simp only [pruneGo, hs, hp, hage, if_false, Bool.false_eq_true]
          rw [List.filter_cons_of_neg (by simp [hs, hps, hp])]
          exact ih

theorem mem_globSorted {name : String} {files : List String} :
    name ∈ globSorted files ↔
      name ∈ files ∧ endsWithB name.data suffixChars = true := by
  unfold globSorted
  rw [(List.perm_insertionSort strLe _).mem_iff, List.mem_filter]

theorem strptimeTs_valid {g : List Char} {t : Timestamp} (h : strptimeTs g = some t) :
    validTs t = true := by
  unfold strptimeTs at h
  split at h
  · split at h
    · dsimp only at h
      split at h
      · cases Option.some_inj.mp h
        assumption
      · cases h
    · cases h
  · cases h

/-! ## Claim C2 -/

/-- Claim C2: for every directory state, prune deletes only files whose
name ends in `.tar.gz.age` and carries the exact `-YYYY-MM-DD-HHMMSS`
suffix (4-2-2-6 digit widths) parsing to an existing calendar date and
time; a file not matching this never appears among the deleted files. -/
theorem prune_deletes_only_matching_archives (files : List String)
    (maxAgeDays : ℕ) (now : ℤ) (name : String)
    (h : name ∈ (pruneScan files maxAgeDays now).1) :
    endsWithB name.data suffixChars = true ∧
      ∃ g, searchTs name.data = some g ∧ tsShape g = true ∧
        ∃ t, strptimeTs g = some t ∧ validTs t = true := by
  unfold pruneScan at h
  obtain ⟨_, t, hp, _⟩ := pruneGo_deleted_mem h
  unfold parseTimestamp at hp
  rcases hs : searchTs name.data with _ | g <;> rw [hs] at hp
  · cases hp
  · simp only [Option.some_bind] at hp
    obtain ⟨_, _, hshape⟩ := searchTs_some hs
    exact ⟨endsWith_of_searchTs hs, g, rfl, hshape, t, hp, strptimeTs_valid hp⟩

/-- Witness for C2 at a concrete directory state. -/
theorem prune_deletes_only_matching_archives_witness :
    "docs-2020-01-15-120000.tar.gz.age"
        ∈ (pruneScan ["docs-2020-01-15-120000.tar.gz.age"] 30
            (toSeconds ⟨2021, 1, 1, 0, 0, 0⟩ : ℕ)).1 ∧
      (endsWithB "docs-2020-01-15-120000.tar.gz.age".data suffixChars = true ∧
        ∃ g, searchTs "docs-2020-01-15-120000.tar.gz.age".data = some g ∧
          tsShape g = true ∧
          ∃ t, strptimeTs g = some t ∧ validTs t = true) :=
  ⟨by decide,
    prune_deletes_only_matching_archives ["docs-2020-01-15-120000.tar.gz.age"] 30
      (toSeconds ⟨2021, 1, 1, 0, 0, 0⟩ : ℕ) "docs-2020-01-15-120000.tar.gz.age"
      (by decide)⟩

/-! ## Claim C6 -/

/-- Claim C6: for every directory state, threshold and time `now`, pruning
deletes exactly the parseable archives whose age in fractional days,
`(now - timestamp) / 86400` seconds, strictly exceeds the threshold;
everything else (including everything at or below the threshold) is
kept. -/
theorem prune_selects_exactly_old_archives (files : List String)
    (maxAgeDays : ℕ) (now : ℤ) (name : String) :
    name ∈ (pruneScan files maxAgeDays now).1 ↔
      name ∈ files ∧ ∃ t, parseTimestamp name = some t ∧
        ageDays now t > (maxAgeDays : ℚ) := by
  unfold pruneScan
  constructor
  · intro h
    obtain ⟨hmem, t, hp, hage⟩ := pruneGo_deleted_mem h
    exact ⟨(mem_globSorted.mp hmem).1, t, hp,
      (ageExceeds_iff now t maxAgeDays).mp hage⟩
  · rintro ⟨hmem, t, hp, hage⟩
    apply pruneGo_mem_deleted _ hp ((ageExceeds_iff now t maxAgeDays).mpr hage)
    refine mem_globSorted.mpr ⟨hmem, ?_⟩
    unfold parseTimestamp at hp
    rcases hs : searchTs name.data with _ | g <;> rw [hs] at hp
    · cases hp
    · exact endsWith_of_searchTs hs

/-! ## Claim C4 (corrected) -/

/-- Claim C4 as stated is false: a file whose name matches the timestamp
pattern but whose digits do not form an existing calendar date (month 13)
is skipped with a printed warning, not silently. -/
theorem prune_unparseable_warning_cex :
    (pruneScan ["docs-2020-13-01-120000.tar.gz.age"] 30
        (toSeconds ⟨2021, 1, 1, 0, 0, 0⟩ : ℕ)).1 = [] ∧
      (pruneScan ["docs-2020-13-01-120000.tar.gz.age"] 30
          (toSeconds ⟨2021, 1, 1, 0, 0, 0⟩ : ℕ)).2 =
        ["Warning: cannot parse timestamp in docs-2020-13-01-120000.tar.gz.age, skipping."] := by
  constructor
  · decide
  · decide

/-- Claim C4 amended: during pruning a file whose name does not match the
timestamp pattern is skipped silently; a file matching the pattern whose
digits do not form an existing date is skipped with a warning naming the
file; in both cases the file is excluded from the deletion result and the
scan never fails (it is a total function). -/
theorem prune_unparseable_handling (files : List String) (maxAgeDays : ℕ)
    (now : ℤ) :
    ((pruneScan files maxAgeDays now).2 =
      ((globSorted files).filter
        (fun f => (searchTs f.data).isSome && (parseTimestamp f).isNone)).map
          cannotParseMsg) ∧
    (∀ name ∈ (pruneScan files maxAgeDays now).1,
      (parseTimestamp name).isSome = true) := by
  constructor
  · exact pruneGo_warnings _ _ _
  · intro name h
    obtain ⟨_, t, hp, _⟩ := pruneGo_deleted_mem h
    rw [hp]
    rfl

/-- Witness for the amended C4 at a concrete directory state. -/
theorem prune_unparseable_handling_witness :
    ((pruneScan ["docs-2020-13-01-120000.tar.gz.age", "docs-notadate.tar.gz.age"] 30
        (toSeconds ⟨2021, 1, 1, 0, 0, 0⟩ : ℕ)).2 =
      ["Warning: cannot parse timestamp in docs-2020-13-01-120000.tar.gz.age, skipping."]) ∧
    (parseTimestamp "docs-2020-01-15-120000.tar.gz.age").isSome = true :=
  ⟨((prune_unparseable_handling _ 30 _).1).trans (by decide),
    (prune_unparseable_handling ["docs-2020-01-15-120000.tar.gz.age"] 30
        (toSeconds ⟨2021, 1, 1, 0, 0, 0⟩ : ℕ)).2 _ (by decide)⟩

/-! ## Claim C8 -/

/-- Claim C8: prune with a missing, non-numeric or zero days argument
prints the usage message, exits 1 and deletes nothing — the directory
contents are unchanged. -/
theorem prune_usage_error (daysArg : Option String) (files : List String)
    (now : ℤ)
    (h : daysArg = none ∨
      ∃ s, daysArg = some s ∧ (pyIsdigit s = false ∨ strToNat s = 0)) :
    cmd_prune daysArg files now = ⟨1, true, files, [], []⟩ := by
  rcases h with rfl | ⟨s, rfl, hs⟩
  · rfl
  · have hc : (!pyIsdigit s || strToNat s == 0) = true := by
      rcases hs with hs | hs <;> simp [hs]
    simp only [cmd_prune, hc, if_true]

/-- Witness for C8: both `--prune abc` and `--prune 0` (and a missing
argument) are rejected without deleting the file present. -/
theorem prune_usage_error_witness :
    (pyIsdigit "abc" = false ∧
      cmd_prune (some "abc") ["docs-2020-01-15-120000.tar.gz.age"] 0 =
        ⟨1, true, ["docs-2020-01-15-120000.tar.gz.age"], [], []⟩) ∧
    (strToNat "0" = 0 ∧
      cmd_prune (some "0") ["docs-2020-01-15-120000.tar.gz.age"] 0 =
        ⟨1, true, ["docs-2020-01-15-120000.tar.gz.age"], [], []⟩) ∧
    cmd_prune none ["docs-2020-01-15-120000.tar.gz.age"] 0 =
      ⟨1, true, ["docs-2020-01-15-120000.tar.gz.age"], [], []⟩ :=
  ⟨⟨by decide, prune_usage_error _ _ _ (Or.inr ⟨"abc", rfl, Or.inl (by decide)⟩)⟩,
    ⟨by decide, prune_usage_error _ _ _ (Or.inr ⟨"0", rfl, Or.inr (by decide)⟩)⟩,
    prune_usage_error _ _ _ (Or.inl rfl)⟩

/-! ## Claim C9 -/

/-- Claim C9: the prune days argument is accepted exactly when the string
is nonempty, consists solely of decimal digits and has value at least 1;
any other string (signed forms, decimal points, ...) is rejected as a
usage error with exit 1 and no file deleted. -/
theorem prune_days_acceptance (s : String) (files : List String) (now : ℤ) :
    ((cmd_prune (some s) files now).usageShown = false ↔
      pyIsdigit s = true ∧ 1 ≤ strToNat s) ∧
    (¬(pyIsdigit s = true ∧ 1 ≤ strToNat s) →
      cmd_prune (some s) files now = ⟨1, true, files, [], []⟩) := by
  by_cases hacc : pyIsdigit s = true ∧ 1 ≤ strToNat s
  · obtain ⟨h1, h2⟩ := hacc
    have hcond : (!pyIsdigit s || strToNat s == 0) = false := by
      simp [h1]
      omega
    constructor
    · simp only [cmd_prune, hcond, Bool.false_eq_true, if_false]
      simp [h1, h2]
    · intro hne
      exact absurd ⟨h1, h2⟩ hne
  · have hcond : (!pyIsdigit s || strToNat s == 0) = true := by
      by_cases h1 : pyIsdigit s = true
      · have h2 : strToNat s = 0 := by
          by_contra h2
          exact hacc ⟨h1, by omega⟩
        simp [h2]
      · have h1f : pyIsdigit s = false := by
          rcases hb : pyIsdigit s with _ | _
          · rfl
          · exact absurd hb h1
        simp [h1f]
    constructor
    · simp only [cmd_prune, hcond, if_true]
      exact iff_of_false (by simp) hacc
    · intro
      simp only [cmd_prune, hcond, if_true]

/-- Witness for C9: the signed string "-5" is rejected with nothing
deleted, while "7" is accepted. -/
theorem prune_days_acceptance_witness :
    (¬(pyIsdigit "-5" = true ∧ 1 ≤ strToNat "-5") ∧
      cmd_prune (some "-5") ["docs-2020-01-15-120000.tar.gz.age"] 0 =
        ⟨1, true, ["docs-2020-01-15-120000.tar.gz.age"], [], []⟩) ∧
    ((cmd_prune (some "7") [] 0).usageShown = false ↔
      pyIsdigit "7" = true ∧ 1 ≤ strToNat "7") :=
  ⟨⟨by decide, (prune_days_acceptance "-5" _ 0).2 (by decide)⟩,
    (prune_days_acceptance "7" [] 0).1⟩

/-! ## Claim C5 -/

theorem orderedInsert_map (p : String) (a : String) (l : List String) :
    List.orderedInsert strLe (p ++ a) (l.map (fun x => p ++ x)) =
      (List.orderedInsert strLe a l).map (fun x => p ++ x) := by
  induction l with
  | nil => rfl
  | cons b l ih =>
    simp only [List.map_cons, List.orderedInsert]
    by_cases h : strLe a b
    · rw [if_pos (strLe_append_same.mpr h), if_pos h]
      rfl
    · rw [if_neg (fun hh => h (strLe_append_same.mp hh)), if_neg h, List.map_cons, ih]

theorem insertionSort_map (p : String) (l : List String) :
    List.insertionSort strLe (l.map (fun x => p ++ x)) =
      (List.insertionSort strLe l).map (fun x => p ++ x) := by
  induction l with
  | nil => rfl
  | cons a l ih =>
    simp only [List.map_cons, List.insertionSort, ih, orderedInsert_map]

theorem resolve_single_folder (isDir : String → Bool) (listing : String → List Dirent)
    (parent : String) (hdir : isDir parent = true) :
    resolve_backup_dirs isDir listing [(Directive.folder, parent)] =
      folderChildren parent (listing parent) := by
  simp [resolve_backup_dirs, hdir]

/-- Claim C5: a `folder` directive on an existing directory with N child
subdirectories and M non-directory children resolves to exactly N targets
(one per child subdirectory: the result is the sorted names prefixed by
the parent path), sorted ascending by name, independently of M (any
listing with the same subdirectory children, up to order, resolves to the
same targets). -/
theorem folder_resolution (isDir : String → Bool) (listing : String → List Dirent)
    (parent : String) (hdir : isDir parent = true) :
    (resolve_backup_dirs isDir listing [(Directive.folder, parent)]).length =
        ((listing parent).filter (fun e => e.isDir)).length ∧
    (∃ ns : List String,
      ns.Perm (((listing parent).filter (fun e => e.isDir)).map (fun e => e.name)) ∧
      ns.Sorted strLe ∧
      resolve_backup_dirs isDir listing [(Directive.folder, parent)] =
        ns.map (fun n => parent ++ "/" ++ n)) ∧
    (∀ listing2 : String → List Dirent,
      ((listing2 parent).filter (fun e => e.isDir)).Perm
          ((listing parent).filter (fun e => e.isDir)) →
      resolve_backup_dirs isDir listing2 [(Directive.folder, parent)] =
        resolve_backup_dirs isDir listing [(Directive.folder, parent)]) := by
  have hmap : ∀ l : List Dirent,
      l.map (fun e => parent ++ "/" ++ e.name) =
        (l.map (fun e => e.name)).map (fun x => (parent ++ "/") ++ x) := by
    intro l
    rw [List.map_map]
    rfl
  refine ⟨?_, ⟨List.insertionSort strLe
      (((listing parent).filter (fun e => e.isDir)).map (fun e => e.name)),
      List.perm_insertionSort _ _, List.sorted_insertionSort _ _, ?_⟩, ?_⟩
  · rw [resolve_single_folder isDir listing parent hdir]
    unfold folderChildren
    rw [(List.perm_insertionSort strLe _).length_eq, List.length_map]
  · rw [resolve_single_folder isDir listing parent hdir]
    unfold folderChildren
    rw [hmap, insertionSort_map]
  · intro listing2 hperm
    rw [resolve_single_folder isDir listing parent hdir,
      resolve_single_folder isDir listing2 parent hdir]
    unfold folderChildren
    refine List.eq_of_perm_of_sorted ?_ (List.sorted_insertionSort _ _)
      (List.sorted_insertionSort _ _)
    exact (List.perm_insertionSort _ _).trans
      ((hperm.map _).trans (List.perm_insertionSort _ _).symm)

/-- Witness for C5 at a concrete listing: two subdirectories and one
plain file resolve to two sorted targets. -/
theorem folder_resolution_witness :
    (resolve_backup_dirs (fun p => p == "/home/projects")
        (fun _ => [⟨"beta", true⟩, ⟨"readme.txt", false⟩, ⟨"alpha", true⟩])
        [(Directive.folder, "/home/projects")]).length = 2 ∧
    resolve_backup_dirs (fun p => p == "/home/projects")
        (fun _ => [⟨"beta", true⟩, ⟨"readme.txt", false⟩, ⟨"alpha", true⟩])
        [(Directive.folder, "/home/projects")] =
      ["/home/projects/alpha", "/home/projects/beta"] :=
  ⟨((folder_resolution (fun p => p == "/home/projects")
      (fun _ => [⟨"beta", true⟩, ⟨"readme.txt", false⟩, ⟨"alpha", true⟩])
      "/home/projects" (by decide)).1).trans (by decide),
    by decide⟩

/-! ## Claim C7 -/

theorem parseConfigLine_of_strip (line : String) (s : List Char)
    (hline : pyStrip line.data = s) (hne : s.isEmpty = false)
    (hhash : (s.head? == some '#') = false) :
    parseConfigLine line =
      (classifyStripped s).map (fun p => (p.1, String.mk p.2)) := by
  unfold parseConfigLine
  rw [hline]
  dsimp only
  rw [hne, hhash]
  rfl

theorem classify_path_space (c : Char) (rest : List Char)
    (hspace : pySpace c = true) :
    classifyStripped ("path".data ++ c :: rest) =
      some (Directive.path, pyStrip ((c :: rest).dropWhile pySpace)) := by
  unfold classifyStripped
  rw [show kwMatch "path".data ("path".data ++ c :: rest) =
      (if pySpace c then some (pyStrip ((c :: rest).dropWhile pySpace)) else none)
    from rfl]
  rw [hspace]
  rfl

theorem classify_directory_space (c : Char) (rest : List Char)
    (hspace : pySpace c = true) :
    classifyStripped ("directory".data ++ c :: rest) =
      some (Directive.path, pyStrip ((c :: rest).dropWhile pySpace)) := by
  unfold classifyStripped
  rw [show kwMatch "path".data ("directory".data ++ c :: rest) = none from rfl]
  rw [show kwMatch "directory".data ("directory".data ++ c :: rest) =
      (if pySpace c then some (pyStrip ((c :: rest).dropWhile pySpace)) else none)
    from rfl]
  rw [hspace]
  rfl

theorem classify_folder_space (c : Char) (rest : List Char)
    (hspace : pySpace c = true) :
    classifyStripped ("folder".data ++ c :: rest) =
      some (Directive.folder, pyStrip ((c :: rest).dropWhile pySpace)) := by
  unfold classifyStripped
  rw [show kwMatch "path".data ("folder".data ++ c :: rest) = none from rfl]
  rw [show kwMatch "directory".data ("folder".data ++ c :: rest) = none from rfl]
  rw [show kwMatch "folder".data ("folder".data ++ c :: rest) =
      (if pySpace c then some (pyStrip ((c :: rest).dropWhile pySpace)) else none)
    from rfl]
  rw [hspace]
  rfl

theorem classify_bare (kw : List Char)
    (hkw : kw = "path".data ∨ kw = "directory".data ∨ kw = "folder".data)
    (rest : List Char) (hrest : ∀ c, rest.head? = some c → pySpace c = false) :
    classifyStripped (kw ++ rest) = some (Directive.path, kw ++ rest) := by
  rcases hkw with rfl | rfl | rfl <;> cases rest with
  | nil => rfl
  | cons c r2 =>
    have hc : pySpace c = false := hrest c rfl
    unfold classifyStripped
    first
    | (rw [show kwMatch "path".data ("path".data ++ c :: r2) =
          (if pySpace c then some (pyStrip ((c :: r2).dropWhile pySpace)) else none)
        from rfl]
       rw [hc]
       rfl)
    | (rw [show kwMatch "path".data ("directory".data ++ c :: r2) = none from rfl]
       rw [show kwMatch "directory".data ("directory".data ++ c :: r2) =
          (if pySpace c then some (pyStrip ((c :: r2).dropWhile pySpace)) else none)
        from rfl]
       rw [hc]
       rfl)
    | (rw [show kwMatch "path".data ("folder".data ++ c :: r2) = none from rfl]
       rw [show kwMatch "directory".data ("folder".data ++ c :: r2) = none from rfl]
       rw [show kwMatch "folder".data ("folder".data ++ c :: r2) =
          (if pySpace c then some (pyStrip ((c :: r2).dropWhile pySpace)) else none)
        from rfl]
       rw [hc]
       rfl)

/-- Claim C7: on a non-blank, non-comment config line, a leading directive
keyword (`path`, `directory`, `folder`) is recognized only when followed
by at least one whitespace character, in which case the remainder (after
the whitespace, stripped) is the raw path and `directory` normalizes to
`path`; a line that merely begins with such a word without following
whitespace is one bare path in its entirety under the `path` directive. -/
theorem config_directive_whitespace (line : String) (kw : String) (d : Directive)
    (hkw : (kw, d) ∈ [("path", Directive.path), ("directory", Directive.path),
      ("folder", Directive.folder)]) :
    (∀ c rest, pyStrip line.data = kw.data ++ c :: rest → pySpace c = true →
      parseConfigLine line =
        some (d, String.mk (pyStrip ((c :: rest).dropWhile pySpace)))) ∧
    (∀ rest, pyStrip line.data = kw.data ++ rest →
      (∀ c, rest.head? = some c → pySpace c = false) →
      parseConfigLine line = some (Directive.path, String.mk (kw.data ++ rest))) := by
  simp only [List.mem_cons, List.mem_singleton, List.not_mem_nil, or_false,
    Prod.mk.injEq] at hkw
  constructor
  · intro c rest hline hspace
    rcases hkw with ⟨rfl, rfl⟩ | ⟨rfl, rfl⟩ | ⟨rfl, rfl⟩ <;>
      rw [parseConfigLine_of_strip line _ hline rfl rfl]
    · rw [classify_path_space c rest hspace]
      rfl
    · rw [classify_directory_space c rest hspace]
      rfl
    · rw [classify_folder_space c rest hspace]
      rfl
  · intro rest hline hrest
    rcases hkw with ⟨rfl, rfl⟩ | ⟨rfl, rfl⟩ | ⟨rfl, rfl⟩ <;>
        rw [parseConfigLine_of_strip line _ hline
          (by cases rest <;> rfl) (by cases rest <;> rfl)] <;>
      rw [classify_bare _ (by simp) rest hrest] <;> rfl

/-- Witness for C7 on concrete lines: `pathological` stays one bare path,
`directory  /x` is a normalized directive, `folder /y` a folder
directive. -/
theorem config_directive_whitespace_witness :
    parseConfigLine "pathological" = some (Directive.path, "pathological") ∧
    parseConfigLine "directory  /x" = some (Directive.path, "/x") ∧
    parseConfigLine "folder /y" = some (Directive.folder, "/y") :=
  ⟨by
    have h := (config_directive_whitespace "pathological" "path" Directive.path
      (by decide)).2 "ological".data (by decide) (by decide)
    simpa using h,
   by
    have h := (config_directive_whitespace "directory  /x" "directory" Directive.path
      (by decide)).1 ' ' " /x".data (by decide) (by decide)
    simpa using h,
   by
    have h := (config_directive_whitespace "folder /y" "folder" Directive.folder
      (by decide)).1 ' ' "/y".data (by decide) (by decide)
    simpa using h⟩

/-! ## Claim C1 (corrected) -/

theorem backupLoop_enc_ok (tarOk encOk : String → Bool) (dirs : List String)
    (henc : ∀ d ∈ dirs, encOk d = true) :
    backupLoop tarOk encOk dirs =
      .finished (dirs.filter (fun d => tarOk d))
        ((dirs.filter (fun d => !tarOk d)).map tarFailMsg) := by
  induction dirs with
  | nil => rfl
  | cons d rest ih =>
    have hrec := ih (fun x hx => henc x (List.mem_cons_of_mem d hx))
    rcases htar : tarOk d with _ | _
    · simp only [backupLoop, htar, Bool.false_eq_true, if_false, hrec]
      rw [List.filter_cons_of_neg (by simp [htar]),
        List.filter_cons_of_pos (by simp [htar]), List.map_cons]
    · have henc1 : encOk d = true := henc d (List.mem_cons_self _ _)
      simp only [backupLoop, htar, henc1, if_true, hrec]
      rw [List.filter_cons_of_pos (by simp [htar]),
        List.filter_cons_of_neg (by simp [htar])]

theorem backupLoop_enc_fail (tarOk encOk : String → Bool)
    (pre : List String) (d : String) (rest : List String)
    (hpre : ∀ x ∈ pre, encOk x = true) (htar : tarOk d = true)
    (henc : encOk d = false) :
    backupLoop tarOk encOk (pre ++ d :: rest) =
      .aborted (pre.filter (fun x => tarOk x))
        ((pre.filter (fun x => !tarOk x)).map tarFailMsg) := by
  induction pre with
  | nil => simp [backupLoop, htar, henc]
  | cons x pre ih =>
    have hrec := ih (fun y hy => hpre y (List.mem_cons_of_mem x hy))
    rcases htx : tarOk x with _ | _
    · simp only [List.cons_append, backupLoop, htx, Bool.false_eq_true, if_false,
        List.append_eq, hrec]
      rw [List.filter_cons_of_neg (by simp [htx]),
        List.filter_cons_of_pos (by simp [htx]), List.map_cons]
    · have hex : encOk x = true := hpre x (List.mem_cons_self _ _)
      simp only [List.cons_append, backupLoop, htx, hex, if_true,
        List.append_eq, hrec]
      rw [List.filter_cons_of_pos (by simp [htx]),
        List.filter_cons_of_neg (by simp [htx])]

/-- Claim C1 as stated is false: when the encryption collaborator fails on
the first of two targets, the process exits 1 at once — nothing is
archived, no warning is printed, and the second target is never
processed, instead of a warning, a skip, and an exit-0 completion. -/
theorem backup_encryption_failure_cex :
    cmd_backup (some "pw") "" "" (fun _ => true) (fun d => d != "a")
        ["a", "b"] = ⟨0, 1, [], []⟩ := by
  decide

/-- Claim C1 amended: during backup a tar (archiver) failure on a single
target is reported as a warning, the target is skipped and the run
continues, exiting 0 on completion even when some targets failed; an
encryption failure, however, is fatal: the process exits 1 immediately,
with only the targets before the failing one archived and no further
target processed. -/
theorem backup_failure_handling (pw fst snd : String) (hpw : pw ≠ "")
    (tarOk encOk : String → Bool) (dirs : List String) (hne : dirs ≠ []) :
    ((∀ d ∈ dirs, encOk d = true) →
      cmd_backup (some pw) fst snd tarOk encOk dirs =
        ⟨0, 0, dirs.filter (fun d => tarOk d),
          (dirs.filter (fun d => !tarOk d)).map tarFailMsg⟩) ∧
    (∀ pre d rest, dirs = pre ++ d :: rest → (∀ x ∈ pre, encOk x = true) →
      tarOk d = true → encOk d = false →
      cmd_backup (some pw) fst snd tarOk encOk dirs =
        ⟨0, 1, pre.filter (fun x => tarOk x),
          (pre.filter (fun x => !tarOk x)).map tarFailMsg⟩) := by
  have hempty : dirs.isEmpty = false := by
    cases dirs with
    | nil => exact absurd rfl hne
    | cons d rest => rfl
  have hbeq : (pw == "") = false := by
    rcases hb : pw == "" with _ | _
    · rfl
    · exact absurd (by simpa using hb) hpw
  constructor
  · intro henc
    simp only [cmd_backup, hempty, Bool.false_eq_true, if_false, hbeq,
      backupLoop_enc_ok tarOk encOk dirs henc]
  · intro pre d rest hsplit hpre htar hencf
    subst hsplit
    simp only [cmd_backup, hempty, Bool.false_eq_true, if_false, hbeq,
      backupLoop_enc_fail tarOk encOk pre d rest hpre htar hencf]

/-- Witness for the amended C1: a run where tar fails on `b` completes
with exit 0 and a warning, while a run where encryption fails on `a`
aborts with exit 1. -/
theorem backup_failure_handling_witness :
    cmd_backup (some "pw") "" "" (fun d => d != "b") (fun _ => true)
        ["a", "b", "c"] =
      ⟨0, 0, ["a", "c"], [tarFailMsg "b"]⟩ ∧
    cmd_backup (some "pw") "" "" (fun _ => true) (fun d => d != "a")
        ["a", "b"] = ⟨0, 1, [], []⟩ :=
  ⟨((backup_failure_handling "pw" "" "" (by decide) (fun d => d != "b")
        (fun _ => true) ["a", "b", "c"] (by decide)).1
      (fun d _ => rfl)).trans (by decide),
    ((backup_failure_handling "pw" "" "" (by decide) (fun _ => true)
        (fun d => d != "a") ["a", "b"] (by decide)).2 [] "a" ["b"] rfl
      (fun x hx => absurd hx (List.not_mem_nil x)) (by decide)
      (by decide)).trans (by decide)⟩

/-! ## Claim C10 (corrected) -/

/-- Claim C10 as stated is false: when `AGE_PASSPHRASE` is set to the
empty string, the passphrase prompt is still issued (python truthiness,
not set-ness, is what the code tests). -/
theorem backup_passphrase_env_cex :
    (cmd_backup (some "") "pw" "pw" (fun _ => true) (fun _ => true)
        ["d"]).prompts = 2 := by
  decide

/-- Claim C10 amended: in backup mode with a nonempty resolved target
list, when `AGE_PASSPHRASE` is set to a nonempty value no passphrase
prompt is issued; when it is unset or set to the empty string, a
passphrase and a confirmation are read, and if the two differ the process
exits 1 before invoking the archiver or creating any archive (nothing
archived, no warning printed). -/
theorem backup_passphrase_handling (envPass : Option String) (fst snd : String)
    (tarOk encOk : String → Bool) (dirs : List String) (hne : dirs ≠ []) :
    (∀ p, envPass = some p → p ≠ "" →
      (cmd_backup envPass fst snd tarOk encOk dirs).prompts = 0) ∧
    ((envPass = none ∨ envPass = some "") →
      (cmd_backup envPass fst snd tarOk encOk dirs).prompts = 2 ∧
      (fst ≠ snd →
        cmd_backup envPass fst snd tarOk encOk dirs = ⟨2, 1, [], []⟩)) := by
  have hempty : dirs.isEmpty = false := by
    cases dirs with
    | nil => exact absurd rfl hne
    | cons d rest => rfl
  constructor
  · intro p hp hpne
    subst hp
    have hbeq : (p == "") = false := by
      rcases hb : p == "" with _ | _
      · rfl
      · exact absurd (by simpa using hb) hpne
    simp only [cmd_backup, hempty, Bool.false_eq_true, if_false, hbeq]
    rcases backupLoop tarOk encOk dirs with a | a <;> rfl
  · intro henv
    have hcb : cmd_backup envPass fst snd tarOk encOk dirs =
        if fst == snd then
          (match backupLoop tarOk encOk dirs with
            | .finished a w => ⟨2, 0, a, w⟩
            | .aborted a w => ⟨2, 1, a, w⟩)
        else ⟨2, 1, [], []⟩ := by
      rcases henv with rfl | rfl <;>
        (unfold cmd_backup
         rw [hempty, if_neg (by simp)]
         try rfl)
    constructor
    · rw [hcb]
      by_cases hfs : (fst == snd) = true
      · rw [if_pos hfs]
        rcases backupLoop tarOk encOk dirs with a | a <;> rfl
      · rw [if_neg hfs]
    · intro hne2
      have hfs : (fst == snd) = false := by
        rcases hb : fst == snd with _ | _
        · rfl
        · exact absurd (by simpa using hb) hne2
      rw [hcb, if_neg (by simp [hfs])]

/-- Witness for the amended C10: a nonempty `AGE_PASSPHRASE` skips the
prompt; an unset one with mismatched prompt inputs exits 1 with nothing
archived. -/
theorem backup_passphrase_handling_witness :
    (cmd_backup (some "pw") "a" "b" (fun _ => true) (fun _ => true)
        ["d"]).prompts = 0 ∧
    cmd_backup none "a" "b" (fun _ => true) (fun _ => true) ["d"] =
      ⟨2, 1, [], []⟩ :=
  ⟨(backup_passphrase_handling (some "pw") "a" "b" (fun _ => true)
      (fun _ => true) ["d"] (by decide)).1 "pw" rfl (by decide),
    ((backup_passphrase_handling none "a" "b" (fun _ => true)
      (fun _ => true) ["d"] (by decide)).2 (Or.inl rfl)).2 (by decide)⟩

/-! ## Claim C3 (corrected) -/

theorem daysInMonth_le (y m : ℕ) : daysInMonth y m ≤ 31 := by
  unfold daysInMonth
  split <;> (try split) <;> omega

theorem formatTimestamp_eq (t : Timestamp) (hy1 : 1000 ≤ t.year)
    (hy2 : t.year ≤ 9999) (hmo : t.month < 100) (hd : t.day < 100)
    (hh : t.hour < 100) (hmi : t.minute < 100) (hs : t.second < 100) :
    formatTimestamp t =
      [digitChar (t.year / 1000), digitChar (t.year / 100 % 10),
       digitChar (t.year / 10 % 10), digitChar (t.year % 10), '-',
       digitChar (t.month / 10), digitChar (t.month % 10), '-',
       digitChar (t.day / 10), digitChar (t.day % 10), '-',
       digitChar (t.hour / 10), digitChar (t.hour % 10),
       digitChar (t.minute / 10), digitChar (t.minute % 10),
       digitChar (t.second / 10), digitChar (t.second % 10)] := by
  unfold formatTimestamp
  rw [natToChars_four hy1 hy2, fmt2_eq hmo, fmt2_eq hd, fmt2_eq hh, fmt2_eq hmi,
    fmt2_eq hs]
  rfl

theorem digitsList_all (y mo d h mi s : ℕ) (hy1000 : y / 1000 < 10)
    (hmo10 : mo / 10 < 10) (hd10 : d / 10 < 10) (hh10 : h / 10 < 10)
    (hmi10 : mi / 10 < 10) (hs10 : s / 10 < 10) :
    ([digitChar (y / 1000), digitChar (y / 100 % 10), digitChar (y / 10 % 10),
      digitChar (y % 10), digitChar (mo / 10), digitChar (mo % 10),
      digitChar (d / 10), digitChar (d % 10), digitChar (h / 10),
      digitChar (h % 10), digitChar (mi / 10), digitChar (mi % 10),
      digitChar (s / 10), digitChar (s % 10)].all Char.isDigit) = true := by
  have hdig : ∀ n : ℕ, n % 10 < 10 := fun n => Nat.mod_lt _ (by omega)
  simp only [List.all_cons, List.all_nil, Bool.and_eq_true, and_true]
  exact ⟨digitChar_isDigit hy1000, digitChar_isDigit (hdig _),
    digitChar_isDigit (hdig _), digitChar_isDigit (hdig _),
    digitChar_isDigit hmo10, digitChar_isDigit (hdig _),
    digitChar_isDigit hd10, digitChar_isDigit (hdig _),
    digitChar_isDigit hh10, digitChar_isDigit (hdig _),
    digitChar_isDigit hmi10, digitChar_isDigit (hdig _),
    digitChar_isDigit hs10, digitChar_isDigit (hdig _)⟩

theorem strptimeTs_construct (y mo d h mi s : ℕ) (hy1 : 1000 ≤ y)
    (hy2 : y ≤ 9999) (hvalid : validTs ⟨y, mo, d, h, mi, s⟩ = true) :
    strptimeTs
      [digitChar (y / 1000), digitChar (y / 100 % 10), digitChar (y / 10 % 10),
       digitChar (y % 10), '-', digitChar (mo / 10), digitChar (mo % 10), '-',
       digitChar (d / 10), digitChar (d % 10), '-', digitChar (h / 10),
       digitChar (h % 10), digitChar (mi / 10), digitChar (mi % 10),
       digitChar (s / 10), digitChar (s % 10)] = some ⟨y, mo, d, h, mi, s⟩ := by
  have hbounds : 1 ≤ mo ∧ mo ≤ 12 ∧ 1 ≤ d ∧ d ≤ daysInMonth y mo ∧ h ≤ 23 ∧
      mi ≤ 59 ∧ s ≤ 59 := by
    simp only [validTs, Bool.and_eq_true, decide_eq_true_eq] at hvalid
    tauto
  obtain ⟨hmo1, hmo2, hd1, hd2, hh2, hmi2, hs2⟩ := hbounds
  have hdle : d ≤ 31 := hd2.trans (daysInMonth_le y mo)
  have hdig : ∀ n : ℕ, n % 10 < 10 := fun n => Nat.mod_lt _ (by omega)
  have hall := digitsList_all y mo d h mi s (by omega) (by omega) (by omega)
    (by omega) (by omega) (by omega)
  simp only [strptimeTs]
  rw [if_pos (by simp [hall])]
  have hT : (⟨1000 * digitVal (digitChar (y / 1000)) +
        100 * digitVal (digitChar (y / 100 % 10)) +
        10 * digitVal (digitChar (y / 10 % 10)) + digitVal (digitChar (y % 10)),
      10 * digitVal (digitChar (mo / 10)) + digitVal (digitChar (mo % 10)),
      10 * digitVal (digitChar (d / 10)) + digitVal (digitChar (d % 10)),
      10 * digitVal (digitChar (h / 10)) + digitVal (digitChar (h % 10)),
      10 * digitVal (digitChar (mi / 10)) + digitVal (digitChar (mi % 10)),
      10 * digitVal (digitChar (s / 10)) + digitVal (digitChar (s % 10))⟩ :
        Timestamp) = ⟨y, mo, d, h, mi, s⟩ := by
    rw [digitVal_digitChar (show y / 1000 < 10 by omega),
      digitVal_digitChar (hdig _), digitVal_digitChar (hdig _),
      digitVal_digitChar (hdig _),
      digitVal_digitChar (show mo / 10 < 10 by omega),
      digitVal_digitChar (hdig _),
      digitVal_digitChar (show d / 10 < 10 by omega),
      digitVal_digitChar (hdig _),
      digitVal_digitChar (show h / 10 < 10 by omega),
      digitVal_digitChar (hdig _),
      digitVal_digitChar (show mi / 10 < 10 by omega),
      digitVal_digitChar (hdig _),
      digitVal_digitChar (show s / 10 < 10 by omega),
      digitVal_digitChar (hdig _)]
    simp only [Timestamp.mk.injEq]
    omega
  rw [hT, if_pos hvalid]

/-- Claim C3 as stated is false: for a timestamp with a three-digit year
the produced filename does not carry a four-digit year field (the year is
formatted unpadded), so parsing it yields nothing rather than the
original timestamp. -/
theorem archive_roundtrip_cex :
    validTs ⟨999, 1, 1, 0, 0, 0⟩ = true ∧
    archiveName "docs" ⟨999, 1, 1, 0, 0, 0⟩ =
      "docs-999-01-01-000000.tar.gz.age" ∧
    parseTimestamp (archiveName "docs" ⟨999, 1, 1, 0, 0, 0⟩) = none := by
  refine ⟨by decide, by decide, by decide⟩

/-- Claim C3 amended: for every base name and every valid timestamp whose
year has four digits (1000 ≤ year ≤ 9999, so covering every timestamp
`datetime.now()` produces), the archive filename
`{base}-{YYYY-MM-DD-HHMMSS}.tar.gz.age` parses back to exactly that
timestamp. -/
theorem archive_roundtrip (base : String) (t : Timestamp)
    (hv : validTs t = true) (hy : 1000 ≤ t.year) :
    parseTimestamp (archiveName base t) = some t := by
  have hbounds : t.year ≤ 9999 ∧ t.month ≤ 12 ∧ t.day ≤ daysInMonth t.year t.month ∧
      t.hour ≤ 23 ∧ t.minute ≤ 59 ∧ t.second ≤ 59 := by
    have hv2 := hv
    simp only [validTs, Bool.and_eq_true, decide_eq_true_eq] at hv2
    tauto
  obtain ⟨hy2, hmo2, hd2, hh2, hmi2, hs2⟩ := hbounds
  have hdle : t.day ≤ 31 := hd2.trans (daysInMonth_le _ _)
  have hfmt := formatTimestamp_eq t hy hy2 (by omega) (by omega) (by omega)
    (by omega) (by omega)
  have hshape : tsShape (formatTimestamp t) = true := by
    rw [hfmt]
    simp only [tsShape]
    simp [digitsList_all t.year t.month t.day t.hour t.minute t.second
      (by omega) (by omega) (by omega) (by omega) (by omega) (by omega)]
  have hdata : (archiveName base t).data =
      base.data ++ ('-' :: (formatTimestamp t ++ suffixChars)) := by
    unfold archiveName
    simp [suffixChars]
  unfold parseTimestamp
  rw [hdata, searchTs_append base.data _ _ (matchTsAt_construct hshape)]
  simp only [Option.some_bind]
  rw [hfmt]
  exact strptimeTs_construct t.year t.month t.day t.hour t.minute t.second hy
    hy2 hv

/-- Witness for the amended C3 at a concrete base name and timestamp. -/
theorem archive_roundtrip_witness :
    validTs ⟨2020, 1, 15, 12, 0, 0⟩ = true ∧ 1000 ≤ (2020 : ℕ) ∧
    parseTimestamp (archiveName "docs" ⟨2020, 1, 15, 12, 0, 0⟩) =
      some ⟨2020, 1, 15, 12, 0, 0⟩ :=
  ⟨by decide, by decide,
    archive_roundtrip "docs" ⟨2020, 1, 15, 12, 0, 0⟩ (by decide) (by decide)⟩

end Grisbi
